import Mathlib

/-!
Verification development for the `iced_receipts` application
(`src/tax.rs`, `src/sale.rs`, `src/main.rs`).

Modelling conventions:
- Rust `f32` money/percent values are modelled as rationals `ℚ`, and the
  `u32` quantity as `ℕ`; floating-point rounding is abstracted away.
- The `HashMap<usize, Sale>` of `App` is modelled as an association list
  with replace-in-place-or-append insertion (`insertSale`), which has the
  same `lookup` semantics as `HashMap::insert`.
- The two global `AtomicUsize` counters (`App::next_sale_id` and the
  `NEXT_ID` static inside `SaleItem::default`) are explicit `Nat` fields
  of the application state, threaded through every step.
- `iced` `Task`s (focus changes, async work) carry no application state
  and are not modelled; only the `Operation` component of an `Action` is.
- Text inputs whose contents Rust parses with `str::parse().ok()`
  (item price and quantity) are modelled by messages that carry the
  parse result (`Option ℚ` / `Option ℕ`) directly.
-/

/-- `TaxGroup` from src/tax.rs. -/
inductive TaxGroup where
  | Food
  | Alcohol
  | NonTaxable
  | Other
deriving DecidableEq, Repr

/-- `TaxGroup::tax_rate` from src/tax.rs: the fixed tax-rate table. -/
def TaxGroup.tax_rate : TaxGroup → ℚ
  | .Food => 8 / 100
  | .Alcohol => 10 / 100
  | .NonTaxable => 0
  | .Other => 8 / 100

/-- `SaleItem` from src/sale.rs.  The private Rust fields
`price: Option<f32>` and `quantity: Option<u32>` are named `price?` and
`quantity?` here, so that the public getter methods `price()` and
`quantity()` can keep their Rust names. -/
structure SaleItem where
  id : Nat
  name : String
  price? : Option ℚ
  quantity? : Option ℕ
  tax_group : TaxGroup
deriving DecidableEq, Repr

/-- `SaleItem::price()`: `self.price.unwrap_or(0.0)`. -/
def SaleItem.price (it : SaleItem) : ℚ := it.price?.getD 0

/-- `SaleItem::quantity()`: `self.quantity.unwrap_or(0) as f32`. -/
def SaleItem.quantity (it : SaleItem) : ℚ := (it.quantity?.getD 0 : ℕ)

/-- `SaleItem::default()` from src/sale.rs, with the global `NEXT_ID`
counter value passed explicitly: empty name, unset price and quantity,
tax group `Food`. -/
def defaultSaleItem (id : Nat) : SaleItem :=
  ⟨id, "", none, none, .Food⟩

/-- `Sale` from src/sale.rs. -/
structure Sale where
  items : List SaleItem
  service_charge_percent : Option ℚ
  gratuity_amount : Option ℚ
  name : String
deriving DecidableEq, Repr

/-- `Sale::default()`: no items, unset service charge and gratuity,
name "New Sale". -/
def Sale.default : Sale := ⟨[], none, none, "New Sale"⟩

/-- `Sale::calculate_subtotal` from src/sale.rs. -/
def Sale.calculate_subtotal (s : Sale) : ℚ :=
  (s.items.map (fun it => it.price * it.quantity)).sum

/-- `Sale::calculate_tax` from src/sale.rs. -/
def Sale.calculate_tax (s : Sale) : ℚ :=
  (s.items.map (fun it => it.price * it.quantity * it.tax_group.tax_rate)).sum

/-- `Sale::calculate_service_charge` from src/sale.rs. -/
def Sale.calculate_service_charge (s : Sale) : ℚ :=
  match s.service_charge_percent with
  | some percent => s.calculate_subtotal * (percent / 100)
  | none => 0

/-- `Sale::calculate_total` from src/sale.rs. -/
def Sale.calculate_total (s : Sale) : ℚ :=
  s.calculate_subtotal + s.calculate_tax + s.calculate_service_charge +
    s.gratuity_amount.getD 0

/-- `sale::show::Message` (the variants dispatched in `sale::update`). -/
inductive ShowMsg where
  | Back
  | StartEdit
deriving DecidableEq, Repr

/-- `sale::edit::ItemUpdate` as consumed by `sale::update`.  The Rust
`Price`/`Quantity` payloads are strings; the message here carries the
result of `parse().ok()` (with the empty string mapped to `none`).
The `TaxGroup` variant is named `Group` to avoid clashing with the type. -/
inductive ItemUpdate where
  | Name (name : String)
  | Price (price : Option ℚ)
  | Quantity (quantity : Option ℕ)
  | Group (tax_group : TaxGroup)
deriving DecidableEq, Repr

/-- `sale::edit::Message` as consumed by `sale::update`. -/
inductive EditMsg where
  | Back
  | Cancel
  | Save
  | NameChanged (name : String)
  | AddItem
  | RemoveItem (id : Nat)
  | UpdateItem (id : Nat) (u : ItemUpdate)
  | UpdateServiceCharge (val : ℚ)
  | UpdateGratuity (val : ℚ)
deriving DecidableEq, Repr

/-- `sale::Message`. -/
inductive SaleMsg where
  | Show (m : ShowMsg)
  | Edit (m : EditMsg)
deriving DecidableEq, Repr

/-- `sale::Operation`. -/
inductive SaleOp where
  | Back
  | Save
  | StartEdit
  | Cancel
deriving DecidableEq, Repr

/-- The single-item update applied by `sale::update` on
`edit::Message::UpdateItem`. -/
def applyItemUpdate (u : ItemUpdate) (it : SaleItem) : SaleItem :=
  match u with
  | .Name n => { it with name := n }
  | .Price p => { it with price? := p }
  | .Quantity q => { it with quantity? := q }
  | .Group g => { it with tax_group := g }

/-- `sale.items.iter_mut().find(|i| i.id == id)` followed by the field
update: the first item with the given id is updated, the rest are kept. -/
def updateItemList : List SaleItem → Nat → ItemUpdate → List SaleItem
  | [], _, _ => []
  | it :: rest, id, u =>
      if it.id = id then applyItemUpdate u it :: rest
      else it :: updateItemList rest id u

/-- Result of `sale::update`: the (possibly mutated) sale, the optional
`Operation` of the returned `Action`, and the new value of the global
`SaleItem` id counter. -/
structure UpdateResult where
  sale : Sale
  op : Option SaleOp
  nextItemId : Nat
deriving DecidableEq, Repr

/-- `sale::update` from src/sale.rs (the `Task` component of the returned
`Action` is not modelled). -/
def saleUpdate (nextItemId : Nat) (sale : Sale) : SaleMsg → UpdateResult
  | .Show .Back => ⟨sale, some .Back, nextItemId⟩
  | .Show .StartEdit => ⟨sale, some .StartEdit, nextItemId⟩
  | .Edit .Back => ⟨sale, some .Back, nextItemId⟩
  | .Edit .Cancel => ⟨sale, some .Cancel, nextItemId⟩
  | .Edit .Save => ⟨sale, some .Save, nextItemId⟩
  | .Edit (.NameChanged n) => ⟨{ sale with name := n }, none, nextItemId⟩
  | .Edit .AddItem =>
      ⟨{ sale with items := sale.items ++ [defaultSaleItem nextItemId] },
        none, nextItemId + 1⟩
  | .Edit (.RemoveItem id) =>
      ⟨{ sale with items := sale.items.filter (fun it => it.id != id) },
        none, nextItemId⟩
  | .Edit (.UpdateItem id u) =>
      ⟨{ sale with items := updateItemList sale.items id u }, none, nextItemId⟩
  | .Edit (.UpdateServiceCharge v) =>
      ⟨{ sale with service_charge_percent := some v }, none, nextItemId⟩
  | .Edit (.UpdateGratuity v) =>
      ⟨{ sale with gratuity_amount := some v }, none, nextItemId⟩

/-- `sale::Mode`. -/
inductive Mode where
  | View
  | Edit
deriving DecidableEq, Repr

/-- `Hotkey` from src/main.rs (`Tab` carries whether shift is held). -/
inductive Hotkey where
  | Escape
  | Tab (shift : Bool)
deriving DecidableEq, Repr

/-- The `Operation` component of `sale::handle_hotkey`: Escape yields
`Back` in either mode; Tab yields only a focus `Task` (not modelled)
in Edit mode and nothing in View mode. -/
def handleHotkeyOp (mode : Mode) (h : Hotkey) : Option SaleOp :=
  match h with
  | .Escape => some .Back
  | .Tab _ =>
      match mode with
      | .View => none
      | .Edit => none

/-- `Screen` from src/main.rs. -/
inductive Screen where
  | List
  | Sale (mode : Mode) (id : Option Nat)
deriving DecidableEq, Repr

/-- `list::Message`. -/
inductive ListMsg where
  | NewSale
  | SelectSale (id : Nat)
deriving DecidableEq, Repr

/-- `Message` from src/main.rs. -/
inductive Msg where
  | ListM (m : ListMsg)
  | SaleM (id : Option Nat) (m : SaleMsg)
  | HotkeyM (h : Hotkey)
deriving DecidableEq, Repr

/-- `App` from src/main.rs.  `sales` is the `HashMap<usize, Sale>` as an
association list; `next_item_id` is the global counter of
`SaleItem::default`. -/
structure App where
  screen : Screen
  sales : List (Nat × Sale)
  draft : Option Nat × Sale
  next_sale_id : Nat
  next_item_id : Nat
deriving DecidableEq, Repr

/-- `HashMap::get` on the association-list model. -/
def lookupSale : List (Nat × Sale) → Nat → Option Sale
  | [], _ => none
  | (k, v) :: rest, j => if k = j then some v else lookupSale rest j

/-- `HashMap::insert` on the association-list model: replace the binding
in place when the key is present, append otherwise. -/
def insertSale : List (Nat × Sale) → Nat → Sale → List (Nat × Sale)
  | [], k, v => [(k, v)]
  | (k', v') :: rest, k, v =>
      if k' = k then (k, v) :: rest else (k', v') :: insertSale rest k v

/-- `App::new`: list screen, empty map, blank draft, `next_sale_id = 1`,
and the `SaleItem` id counter at 0. -/
def App.init : App := ⟨.List, [], (none, Sale.default), 1, 0⟩

/-- The sale-resolution logic shared by `App::title`, `App::update` and
`App::view`: the draft when its id matches, otherwise
`sales[&id.unwrap()]`.  `none` models a panic (`unwrap` of `None` or a
missing map entry). -/
def App.resolve (a : App) (oid : Option Nat) : Option Sale :=
  if a.draft.fst = oid then some a.draft.snd
  else
    match oid with
    | none => none
    | some i => lookupSale a.sales i

/-- `App::perform` from src/main.rs on `Operation::Sale(sale_id, op)`.
`none` models a panic (the `self.sales[&id]` indexing in `StartEdit` and
`Cancel`). -/
def App.perform (a : App) (sale_id : Option Nat) : SaleOp → Option App
  | .Back =>
      match a.screen with
      | .List => some a
      | .Sale .Edit _ => some { a with screen := .Sale .View sale_id }
      | .Sale .View _ => some { a with screen := .List }
  | .Save =>
      match a.draft.fst with
      | some id =>
          some { a with
            sales := insertSale a.sales id a.draft.snd,
            screen := .Sale .View (some id) }
      | none =>
          some { a with
            sales := insertSale a.sales a.next_sale_id a.draft.snd,
            draft := (none, Sale.default),
            next_sale_id := a.next_sale_id + 1,
            screen := .Sale .View (some a.next_sale_id) }
  | .StartEdit =>
      match sale_id with
      | some id =>
          match lookupSale a.sales id with
          | none => none
          | some s =>
              some { a with
                draft := (some id, s),
                screen := .Sale .Edit (some id) }
      | none => some { a with screen := .Sale .Edit none }
  | .Cancel =>
      match sale_id with
      | some id =>
          match lookupSale a.sales id with
          | none => none
          | some s =>
              some { a with
                draft := (some id, s),
                screen := .Sale .View (some id) }
      | none =>
          some { a with
            draft := (none, Sale.default),
            screen := .Sale .View none }

/-- `App::update` from src/main.rs.  `none` models a panic while
resolving the target sale. -/
def App.update (a : App) : Msg → Option App
  | .ListM .NewSale =>
      some { a with
        draft := (none, Sale.default),
        screen := .Sale .Edit none }
  | .ListM (.SelectSale id) =>
      some { a with screen := .Sale .View (some id) }
  | .HotkeyM h =>
      match a.screen with
      | .List => some a
      | .Sale mode sale_id =>
          match a.resolve sale_id with
          | none => none
          | some _ =>
              match handleHotkeyOp mode h with
              | none => some a
              | some op => a.perform sale_id op
  | .SaleM sale_id msg =>
      if a.draft.fst = sale_id then
        let r := saleUpdate a.next_item_id a.draft.snd msg
        let a1 : App :=
          { a with
            draft := (a.draft.fst, r.sale),
            next_item_id := r.nextItemId }
        match r.op with
        | none => some a1
        | some op => a1.perform sale_id op
      else
        match sale_id with
        | none => none
        | some i =>
            match lookupSale a.sales i with
            | none => none
            | some s =>
                let r := saleUpdate a.next_item_id s msg
                let a1 : App :=
                  { a with
                    sales := insertSale a.sales i r.sale,
                    next_item_id := r.nextItemId }
                match r.op with
                | none => some a1
                | some op => a1.perform sale_id op

/-- The messages the running application can deliver in a given state:
what the visible screen's widgets emit, plus hotkeys from the global
keyboard subscription. -/
inductive Emit : App → Msg → Prop where
  | newSale {a : App} :
      a.screen = .List → Emit a (.ListM .NewSale)
  | selectSale {a : App} {i : Nat} :
      a.screen = .List → (lookupSale a.sales i).isSome →
      Emit a (.ListM (.SelectSale i))
  | hotkey {a : App} {h : Hotkey} : Emit a (.HotkeyM h)
  | showMsg {a : App} {oid : Option Nat} {m : ShowMsg} :
      a.screen = .Sale .View oid → Emit a (.SaleM oid (.Show m))
  | editMsg {a : App} {oid : Option Nat} {m : EditMsg} :
      a.screen = .Sale .Edit oid → Emit a (.SaleM oid (.Edit m))

/-- States reachable from `App::new` by delivering emitted messages. -/
inductive Reach : App → Prop where
  | init : Reach App.init
  | step {a a' : App} {m : Msg} :
      Reach a → Emit a m → a.update m = some a' → Reach a'

/-- The state invariant: a drafted id is always a key of the map; on a
sale screen with id `some i` the sale resolves through the draft or the
map; on a sale screen with id `none` the draft is the new-sale draft; in
edit mode the draft id equals the screen id; and every map key is below
the id counter. -/
def AppInv (a : App) : Prop :=
  (∀ i, a.draft.fst = some i → (lookupSale a.sales i).isSome) ∧
  (∀ mo i, a.screen = .Sale mo (some i) →
      a.draft.fst = some i ∨ (lookupSale a.sales i).isSome) ∧
  (∀ mo, a.screen = .Sale mo none → a.draft.fst = none) ∧
  (∀ oid, a.screen = .Sale .Edit oid → a.draft.fst = oid) ∧
  (∀ k, (lookupSale a.sales k).isSome → k < a.next_sale_id)

/-- The item-id invariant: every line item stored anywhere in the state
(draft or sales map) has an id strictly below the global `SaleItem`
counter, so `SaleItem::default` always produces a fresh id. -/
def ItemIdInv (a : App) : Prop :=
  (∀ it ∈ a.draft.snd.items, it.id < a.next_item_id) ∧
  (∀ i s, lookupSale a.sales i = some s →
    ∀ it ∈ s.items, it.id < a.next_item_id)

/-- Concrete sale items and sales used to instantiate theorems. -/
def exItem : SaleItem := ⟨7, "burger", some 10, some 2, .Food⟩

def exItemBlank : SaleItem := ⟨3, "", none, none, .Alcohol⟩

def exSale : Sale := ⟨[exItem, exItemBlank], some 10, some 5, "Lunch"⟩

def exApp : App := ⟨.Sale .Edit (some 1), [(1, exSale)], (some 1, exSale), 2, 8⟩

def exAppView : App := { exApp with screen := .Sale .View (some 1) }

def exAppNone : App :=
  ⟨.Sale .Edit none, [(1, exSale)], (none, exSale), 2, 8⟩

/-- The `sale::edit` messages that modify sale content (as opposed to the
navigation messages Back / Cancel / Save). -/
inductive ContentEdit : EditMsg → Prop where
  | nameChanged {n : String} : ContentEdit (.NameChanged n)
  | addItem : ContentEdit .AddItem
  | removeItem {i : Nat} : ContentEdit (.RemoveItem i)
  | updateItem {i : Nat} {u : ItemUpdate} : ContentEdit (.UpdateItem i u)
  | updateServiceCharge {v : ℚ} : ContentEdit (.UpdateServiceCharge v)
  | updateGratuity {v : ℚ} : ContentEdit (.UpdateGratuity v)

theorem exSale_subtotal : exSale.calculate_subtotal = 20 := by
  norm_num [exSale, exItem, exItemBlank, Sale.calculate_subtotal,
    SaleItem.price, SaleItem.quantity]

/-- C1: `calculate_total` returns subtotal + tax + service charge +
gratuity, with the service charge equal to subtotal · (percent / 100)
when `service_charge_percent` is set and 0 when unset, and the gratuity
contribution equal to `gratuity_amount` when set and 0 when unset. -/
theorem calculate_total_decomposition (s : Sale) :
    s.calculate_total =
      s.calculate_subtotal + s.calculate_tax + s.calculate_service_charge +
        s.gratuity_amount.getD 0 ∧
    (∀ p, s.service_charge_percent = some p →
        s.calculate_service_charge = s.calculate_subtotal * (p / 100)) ∧
    (s.service_charge_percent = none → s.calculate_service_charge = 0) ∧
    (∀ g, s.gratuity_amount = some g → s.gratuity_amount.getD 0 = g) ∧
    (s.gratuity_amount = none → s.gratuity_amount.getD 0 = 0) := by
  refine ⟨rfl, ?_, ?_, ?_, ?_⟩
  · intro p hp
    simp [Sale.calculate_service_charge, hp]
  · intro hp
    simp [Sale.calculate_service_charge, hp]
  · intro g hg
    simp [hg]
  · intro hg
    simp [hg]

theorem calculate_total_decomposition_witness :
    exSale.calculate_total =
      exSale.calculate_subtotal + exSale.calculate_tax +
        exSale.calculate_service_charge + 5 ∧
    exSale.calculate_service_charge = exSale.calculate_subtotal * (10 / 100) := by
  obtain ⟨h1, h2, _, h4, _⟩ := calculate_total_decomposition exSale
  exact ⟨by rw [h1, h4 5 rfl], h2 10 rfl⟩

/-- C2: `calculate_subtotal` sums price · quantity over the line items;
an unset price counts as 0 and an unset quantity as 0. -/
theorem calculate_subtotal_spec (s : Sale) (it : SaleItem) :
    s.calculate_subtotal =
      (s.items.map (fun i => i.price * i.quantity)).sum ∧
    (it.price? = none → it.price = 0) ∧
    (it.quantity? = none → it.quantity = 0) ∧
    Sale.calculate_subtotal { s with items := it :: s.items } =
      it.price * it.quantity + s.calculate_subtotal := by
  refine ⟨rfl, ?_, ?_, ?_⟩
  · intro h
    simp [SaleItem.price, h]
  · intro h
    simp [SaleItem.quantity, h]
  · simp [Sale.calculate_subtotal]

theorem calculate_subtotal_spec_witness :
    exSale.calculate_subtotal =
      (exSale.items.map (fun i => i.price * i.quantity)).sum ∧
    exItemBlank.price = 0 ∧
    exItemBlank.quantity = 0 ∧
    Sale.calculate_subtotal { exSale with items := exItem :: exSale.items } =
      exItem.price * exItem.quantity + exSale.calculate_subtotal := by
  obtain ⟨h1, _, _, _⟩ := calculate_subtotal_spec exSale exItem
  obtain ⟨_, h2, h3, _⟩ := calculate_subtotal_spec exSale exItemBlank
  obtain ⟨_, _, _, h4⟩ := calculate_subtotal_spec exSale exItem
  exact ⟨h1, h2 rfl, h3 rfl, h4⟩

/-- C3: `calculate_tax` sums price · quantity · tax rate over the line
items, with the fixed table Food 8%, Alcohol 10%, Non-taxable 0%,
Other 8%. -/
theorem calculate_tax_spec (s : Sale) (it : SaleItem) :
    s.calculate_tax =
      (s.items.map (fun i => i.price * i.quantity * i.tax_group.tax_rate)).sum ∧
    TaxGroup.Food.tax_rate = 8 / 100 ∧
    TaxGroup.Alcohol.tax_rate = 10 / 100 ∧
    TaxGroup.NonTaxable.tax_rate = 0 ∧
    TaxGroup.Other.tax_rate = 8 / 100 ∧
    Sale.calculate_tax { s with items := it :: s.items } =
      it.price * it.quantity * it.tax_group.tax_rate + s.calculate_tax := by
  refine ⟨rfl, rfl, rfl, rfl, rfl, ?_⟩
  simp [Sale.calculate_tax]

theorem lookupSale_insert_self (m : List (Nat × Sale)) (k : Nat) (v : Sale) :
    lookupSale (insertSale m k v) k = some v := by
  induction m with
  | nil => simp [insertSale, lookupSale]
  | cons hd tl ih =>
      obtain ⟨k', v'⟩ := hd
      by_cases h : k' = k
      · subst h
        simp [insertSale, lookupSale]
      · simp [insertSale, lookupSale, h, ih]

theorem lookupSale_insert_ne (m : List (Nat × Sale)) (k j : Nat) (v : Sale)
    (h : j ≠ k) : lookupSale (insertSale m k v) j = lookupSale m j := by
  induction m with
  | nil => simp [insertSale, lookupSale, Ne.symm h]
  | cons hd tl ih =>
      obtain ⟨k', v'⟩ := hd
      by_cases hk : k' = k
      · subst hk
        simp [insertSale, lookupSale, Ne.symm h]
      · by_cases hj : k' = j
        · subst hj
          simp [insertSale, lookupSale, hk]
        · simp [insertSale, lookupSale, hk, hj, ih]

theorem insertSale_lookup_eq (m : List (Nat × Sale)) (k : Nat) (v : Sale)
    (h : lookupSale m k = some v) : insertSale m k v = m := by
  induction m with
  | nil => simp [lookupSale] at h
  | cons hd tl ih =>
      obtain ⟨k', v'⟩ := hd
      by_cases hk : k' = k
      · subst hk
        simp [lookupSale] at h
        simp [insertSale, h]
      · simp [lookupSale, hk] at h
        simp [insertSale, hk, ih h]

theorem lookupSale_insert_isSome (m : List (Nat × Sale)) (k j : Nat) (v : Sale) :
    (lookupSale (insertSale m k v) j).isSome ↔
      j = k ∨ (lookupSale m j).isSome := by
  by_cases h : j = k
  · subst h
    simp [lookupSale_insert_self]
  · simp [lookupSale_insert_ne m k j v h, h]

theorem lookupSale_insert_isSome_mono (m : List (Nat × Sale)) (k j : Nat)
    (v : Sale) (h : (lookupSale m j).isSome) :
    (lookupSale (insertSale m k v) j).isSome :=
  (lookupSale_insert_isSome m k j v).mpr (Or.inr h)

/-- C4: the Save operation: with a drafted existing id, the map entry for
that id becomes the draft sale and every other entry is unchanged; with no
drafted id, the draft sale is inserted under the freshly allocated id
`next_sale_id` (which is then incremented) and the draft is reset to the
blank default sale; in both cases the screen becomes the sale screen in
View mode for the saved id. -/
theorem save_operation_spec (a : App) (sid : Option Nat) :
    (∀ id, a.draft.fst = some id →
      ∃ a', a.perform sid .Save = some a' ∧
        lookupSale a'.sales id = some a.draft.snd ∧
        (∀ j, j ≠ id → lookupSale a'.sales j = lookupSale a.sales j) ∧
        a'.screen = .Sale .View (some id)) ∧
    (a.draft.fst = none →
      ∃ a', a.perform sid .Save = some a' ∧
        lookupSale a'.sales a.next_sale_id = some a.draft.snd ∧
        (∀ j, j ≠ a.next_sale_id →
          lookupSale a'.sales j = lookupSale a.sales j) ∧
        a'.draft = (none, Sale.default) ∧
        a'.next_sale_id = a.next_sale_id + 1 ∧
        a'.screen = .Sale .View (some a.next_sale_id)) := by
  constructor
  · intro id hid
    refine ⟨{ a with
        sales := insertSale a.sales id a.draft.snd,
        screen := .Sale .View (some id) },
      by simp [App.perform, hid], ?_, ?_, rfl⟩
    · exact lookupSale_insert_self a.sales id a.draft.snd
    · intro j hj
      exact lookupSale_insert_ne a.sales id j a.draft.snd hj
  · intro hnone
    refine ⟨{ a with
        sales := insertSale a.sales a.next_sale_id a.draft.snd,
        draft := (none, Sale.default),
        next_sale_id := a.next_sale_id + 1,
        screen := .Sale .View (some a.next_sale_id) },
      by simp [App.perform, hnone], ?_, ?_, rfl, rfl, rfl⟩
    · exact lookupSale_insert_self a.sales a.next_sale_id a.draft.snd
    · intro j hj
      exact lookupSale_insert_ne a.sales a.next_sale_id j a.draft.snd hj

theorem save_operation_spec_witness :
    (∃ a', exApp.perform (some 1) .Save = some a' ∧
      lookupSale a'.sales 1 = some exApp.draft.snd ∧
      (∀ j, j ≠ 1 → lookupSale a'.sales j = lookupSale exApp.sales j) ∧
      a'.screen = .Sale .View (some 1)) ∧
    (∃ a', App.init.perform none .Save = some a' ∧
      lookupSale a'.sales App.init.next_sale_id = some App.init.draft.snd ∧
      (∀ j, j ≠ App.init.next_sale_id →
        lookupSale a'.sales j = lookupSale App.init.sales j) ∧
      a'.draft = (none, Sale.default) ∧
      a'.next_sale_id = App.init.next_sale_id + 1 ∧
      a'.screen = .Sale .View (some App.init.next_sale_id)) :=
  ⟨(save_operation_spec exApp (some 1)).1 1 rfl,
   (save_operation_spec App.init none).2 rfl⟩

/-- C6: the Back operation on the sale screen: in Edit mode it moves to
View mode with the same sale id, in View mode it moves to the list
screen; the sales map and the draft are unchanged in both cases. -/
theorem back_operation_spec (a : App) (mo : Mode) (sid : Option Nat)
    (h : a.screen = .Sale mo sid) :
    (mo = .Edit →
      a.perform sid .Back = some { a with screen := .Sale .View sid }) ∧
    (mo = .View → a.perform sid .Back = some { a with screen := .List }) := by
  constructor
  · intro hmo
    subst hmo
    simp [App.perform, h]
  · intro hmo
    subst hmo
    simp [App.perform, h]

theorem back_operation_spec_witness :
    exApp.perform (some 1) .Back =
      some { exApp with screen := .Sale .View (some 1) } ∧
    exAppView.perform (some 1) .Back =
      some { exAppView with screen := .List } :=
  ⟨(back_operation_spec exApp .Edit (some 1) rfl).1 rfl,
   (back_operation_spec exAppView .View (some 1) rfl).2 rfl⟩

/-- C7: for a sale id present in the map, StartEdit followed immediately
by Save leaves the sales map unchanged and the screen on the sale screen
in View mode for that id. -/
theorem startedit_save_roundtrip (a : App) (i : Nat) (s : Sale)
    (h : lookupSale a.sales i = some s) :
    ∃ a1 a2,
      a.perform (some i) .StartEdit = some a1 ∧
      a1.perform (some i) .Save = some a2 ∧
      a2.sales = a.sales ∧
      (∀ j, lookupSale a2.sales j = lookupSale a.sales j) ∧
      a2.screen = .Sale .View (some i) := by
  refine ⟨{ a with draft := (some i, s), screen := .Sale .Edit (some i) },
    { a with
      draft := (some i, s),
      sales := insertSale a.sales i s,
      screen := .Sale .View (some i) },
    by simp [App.perform, h], by simp [App.perform], ?_, ?_, rfl⟩
  · exact insertSale_lookup_eq a.sales i s h
  · intro j
    rw [insertSale_lookup_eq a.sales i s h]

theorem startedit_save_roundtrip_witness :
    ∃ a1 a2,
      exApp.perform (some 1) .StartEdit = some a1 ∧
      a1.perform (some 1) .Save = some a2 ∧
      a2.sales = exApp.sales ∧
      (∀ j, lookupSale a2.sales j = lookupSale exApp.sales j) ∧
      a2.screen = .Sale .View (some 1) :=
  startedit_save_roundtrip exApp 1 exSale rfl

theorem applyItemUpdate_id (u : ItemUpdate) (it : SaleItem) :
    (applyItemUpdate u it).id = it.id := by
  cases u <;> rfl

theorem updateItemList_id_mem (l : List SaleItem) (i : Nat) (u : ItemUpdate)
    (P : Nat → Prop) :
    (∀ it ∈ l, P it.id) → ∀ it ∈ updateItemList l i u, P it.id := by
  induction l with
  | nil =>
      intro h it hit
      simp [updateItemList] at hit
  | cons hd tl ih =>
      intro h it hit
      rw [updateItemList] at hit
      by_cases hid : hd.id = i
      · rw [if_pos hid] at hit
        rcases List.mem_cons.mp hit with he | htl
        · subst he
          rw [applyItemUpdate_id]
          exact h hd (List.mem_cons_self hd tl)
        · exact h it (List.mem_cons_of_mem hd htl)
      · rw [if_neg hid] at hit
        rcases List.mem_cons.mp hit with he | htl
        · subst he
          exact h it (List.mem_cons_self it tl)
        · exact ih (fun x hx => h x (List.mem_cons_of_mem hd hx)) it htl

theorem saleUpdate_item_ids (nid : Nat) (s : Sale) (m : SaleMsg)
    (h : ∀ it ∈ s.items, it.id < nid) :
    (∀ it ∈ (saleUpdate nid s m).sale.items,
        it.id < (saleUpdate nid s m).nextItemId) ∧
    nid ≤ (saleUpdate nid s m).nextItemId := by
  cases m with
  | Show sm => cases sm <;> exact ⟨h, Nat.le_refl _⟩
  | Edit em =>
      cases em with
      | Back => exact ⟨h, Nat.le_refl _⟩
      | Cancel => exact ⟨h, Nat.le_refl _⟩
      | Save => exact ⟨h, Nat.le_refl _⟩
      | NameChanged n => exact ⟨h, Nat.le_refl _⟩
      | AddItem =>
          refine ⟨?_, Nat.le_succ _⟩
          intro it hit
          rcases List.mem_append.mp hit with hin | hnew
          · exact Nat.lt_trans (h it hin) (Nat.lt_succ_self _)
          · rw [List.mem_singleton] at hnew
            subst hnew
            exact Nat.lt_succ_self _
      | RemoveItem i =>
          refine ⟨?_, Nat.le_refl _⟩
          intro it hit
          exact h it (List.mem_of_mem_filter hit)
      | UpdateItem i u =>
          refine ⟨?_, Nat.le_refl _⟩
          exact updateItemList_id_mem s.items i u (fun n => n < nid) h
      | UpdateServiceCharge v => exact ⟨h, Nat.le_refl _⟩
      | UpdateGratuity v => exact ⟨h, Nat.le_refl _⟩

theorem lookupSale_insert_cases (m : List (Nat × Sale)) (k : Nat) (v : Sale)
    (j : Nat) (s : Sale) (h : lookupSale (insertSale m k v) j = some s) :
    (j = k ∧ s = v) ∨ lookupSale m j = some s := by
  by_cases hjk : j = k
  · subst hjk
    rw [lookupSale_insert_self] at h
    injection h with hv
    exact Or.inl ⟨rfl, hv.symm⟩
  · rw [lookupSale_insert_ne m k j v hjk] at h
    exact Or.inr h

theorem perform_item_inv (a a' : App) (sid : Option Nat) (op : SaleOp)
    (hi : ItemIdInv a) (h : a.perform sid op = some a') : ItemIdInv a' := by
  obtain ⟨hd, hm⟩ := hi
  cases op with
  | Back =>
      cases hscr : a.screen with
      | List =>
          simp [App.perform, hscr] at h
          subst h
          exact ⟨hd, hm⟩
      | Sale mode oid =>
          cases mode with
          | Edit =>
              simp [App.perform, hscr] at h
              subst h
              exact ⟨hd, hm⟩
          | View =>
              simp [App.perform, hscr] at h
              subst h
              exact ⟨hd, hm⟩
  | Save =>
      cases hdf : a.draft.fst with
      | some id =>
          simp [App.perform, hdf] at h
          subst h
          refine ⟨hd, ?_⟩
          intro i s hsl it hit
          rcases lookupSale_insert_cases a.sales id a.draft.snd i s hsl with ⟨-, hv⟩ | hold
          · subst hv
            exact hd it hit
          · exact hm i s hold it hit
      | none =>
          simp [App.perform, hdf] at h
          subst h
          refine ⟨?_, ?_⟩
          · intro it hit
            simp [Sale.default] at hit
          · intro i s hsl it hit
            rcases lookupSale_insert_cases a.sales a.next_sale_id a.draft.snd i s hsl with ⟨-, hv⟩ | hold
            · subst hv
              exact hd it hit
            · exact hm i s hold it hit
  | StartEdit =>
      cases sid with
      | none =>
          simp [App.perform] at h
          subst h
          exact ⟨hd, hm⟩
      | some i =>
          cases hl : lookupSale a.sales i with
          | none => simp [App.perform, hl] at h
          | some s =>
              simp [App.perform, hl] at h
              subst h
              exact ⟨hm i s hl, hm⟩
  | Cancel =>
      cases sid with
      | none =>
          simp [App.perform] at h
          subst h
          refine ⟨?_, hm⟩
          intro it hit
          simp [Sale.default] at hit
      | some i =>
          cases hl : lookupSale a.sales i with
          | none => simp [App.perform, hl] at h
          | some s =>
              simp [App.perform, hl] at h
              subst h
              exact ⟨hm i s hl, hm⟩

theorem update_item_inv (a a' : App) (m : Msg)
    (hi : ItemIdInv a) (h : a.update m = some a') : ItemIdInv a' := by
  obtain ⟨hd, hm⟩ := hi
  cases m with
  | ListM lm =>
      cases lm with
      | NewSale =>
          simp [App.update] at h
          subst h
          refine ⟨?_, hm⟩
          intro it hit
          simp [Sale.default] at hit
      | SelectSale i =>
          simp [App.update] at h
          subst h
          exact ⟨hd, hm⟩
  | HotkeyM hk =>
      cases hscr : a.screen with
      | List =>
          simp [App.update, hscr] at h
          subst h
          exact ⟨hd, hm⟩
      | Sale mode oid =>
          cases hres : a.resolve oid with
          | none => simp [App.update, hscr, hres] at h
          | some s =>
              cases hko : handleHotkeyOp mode hk with
              | none =>
                  simp [App.update, hscr, hres, hko] at h
                  subst h
                  exact ⟨hd, hm⟩
              | some op =>
                  simp only [App.update, hscr, hres, hko] at h
                  exact perform_item_inv a a' oid op ⟨hd, hm⟩ h
  | SaleM sid msg =>
      by_cases hdf : a.draft.fst = sid
      · subst hdf
        have hids := saleUpdate_item_ids a.next_item_id a.draft.snd msg hd
        have hinv1 : ItemIdInv { a with
            draft := (a.draft.fst, (saleUpdate a.next_item_id a.draft.snd msg).sale),
            next_item_id := (saleUpdate a.next_item_id a.draft.snd msg).nextItemId } := by
          refine ⟨hids.1, ?_⟩
          intro i s hsl it hit
          exact Nat.lt_of_lt_of_le (hm i s hsl it hit) hids.2
        cases hop : (saleUpdate a.next_item_id a.draft.snd msg).op with
        | none =>
            simp only [App.update, eq_self_iff_true, if_true, hop,
              Option.some.injEq] at h
            subst h
            exact hinv1
        | some op =>
            simp only [App.update, eq_self_iff_true, if_true, hop] at h
            exact perform_item_inv _ a' a.draft.fst op hinv1 h
      · cases sid with
        | none => simp [App.update, hdf] at h
        | some i =>
            cases hl : lookupSale a.sales i with
            | none => simp [App.update, hdf, hl] at h
            | some s =>
                have hids := saleUpdate_item_ids a.next_item_id s msg (hm i s hl)
                have hinv1 : ItemIdInv { a with
                    sales := insertSale a.sales i (saleUpdate a.next_item_id s msg).sale,
                    next_item_id := (saleUpdate a.next_item_id s msg).nextItemId } := by
                  refine ⟨?_, ?_⟩
                  · intro it hit
                    exact Nat.lt_of_lt_of_le (hd it hit) hids.2
                  · intro j s' hsl it hit
                    rcases lookupSale_insert_cases a.sales i
                        (saleUpdate a.next_item_id s msg).sale j s' hsl with ⟨-, hv⟩ | hold
                    · subst hv
                      exact hids.1 it hit
                    · exact Nat.lt_of_lt_of_le (hm j s' hold it hit) hids.2
                cases hop : (saleUpdate a.next_item_id s msg).op with
                | none =>
                    simp only [App.update, hdf, hl, hop, if_false,
                      Option.some.injEq] at h
                    subst h
                    exact hinv1
                | some op =>
                    simp only [App.update, hdf, hl, hop, if_false] at h
                    exact perform_item_inv _ a' (some i) op hinv1 h

theorem reach_item_inv {a : App} (h : Reach a) : ItemIdInv a := by
  induction h with
  | init =>
      refine ⟨?_, ?_⟩
      · intro it hit
        simp [App.init, Sale.default] at hit
      · intro i s hsl
        simp [App.init, lookupSale] at hsl
  | @step a1 a2 m hr he hu ih =>
      exact update_item_inv a1 a2 m ih hu

/-- C8: the AddItem edit message appends exactly one item at the end of
the list — empty name, unset price, unset quantity, tax group Food, id
equal to the (fresh) global item counter, hence distinct from every item
already in the list — leaves existing items unchanged, and does not change
subtotal, tax, service charge or total. -/
theorem additem_spec (nid : Nat) (s : Sale) :
    (saleUpdate nid s (.Edit .AddItem)).sale.items =
      s.items ++ [defaultSaleItem nid] ∧
    (defaultSaleItem nid).name = "" ∧
    (defaultSaleItem nid).price? = none ∧
    (defaultSaleItem nid).quantity? = none ∧
    (defaultSaleItem nid).tax_group = .Food ∧
    (defaultSaleItem nid).id = nid ∧
    (saleUpdate nid s (.Edit .AddItem)).nextItemId = nid + 1 ∧
    (saleUpdate nid s (.Edit .AddItem)).op = none ∧
    ((∀ it ∈ s.items, it.id < nid) →
      ∀ it ∈ s.items, it.id ≠ (defaultSaleItem nid).id) ∧
    (saleUpdate nid s (.Edit .AddItem)).sale.calculate_subtotal =
      s.calculate_subtotal ∧
    (saleUpdate nid s (.Edit .AddItem)).sale.calculate_tax =
      s.calculate_tax ∧
    (saleUpdate nid s (.Edit .AddItem)).sale.calculate_service_charge =
      s.calculate_service_charge ∧
    (saleUpdate nid s (.Edit .AddItem)).sale.calculate_total =
      s.calculate_total ∧
    (∀ a : App, Reach a →
      (∀ it ∈ a.draft.snd.items, it.id < a.next_item_id) ∧
      (∀ i s', lookupSale a.sales i = some s' →
        ∀ it ∈ s'.items, it.id < a.next_item_id)) := by
  have hsub : (saleUpdate nid s (.Edit .AddItem)).sale.calculate_subtotal =
      s.calculate_subtotal := by
    simp [saleUpdate, Sale.calculate_subtotal, defaultSaleItem,
      SaleItem.price, SaleItem.quantity]
  have htax : (saleUpdate nid s (.Edit .AddItem)).sale.calculate_tax =
      s.calculate_tax := by
    simp [saleUpdate, Sale.calculate_tax, defaultSaleItem,
      SaleItem.price, SaleItem.quantity]
  have hsvc : (saleUpdate nid s (.Edit .AddItem)).sale.calculate_service_charge =
      s.calculate_service_charge := by
    simp only [Sale.calculate_service_charge, hsub]
    rfl
  refine ⟨rfl, rfl, rfl, rfl, rfl, rfl, rfl, rfl, ?_, hsub, htax, hsvc, ?_, ?_⟩
  · intro h it hit
    exact Nat.ne_of_lt (h it hit)
  · rw [Sale.calculate_total, Sale.calculate_total, hsub, htax, hsvc]
    rfl
  · intro a ha
    exact reach_item_inv ha

theorem additem_spec_witness :
    (saleUpdate 8 exSale (.Edit .AddItem)).sale.items =
      exSale.items ++ [defaultSaleItem 8] ∧
    (∀ it ∈ exSale.items, it.id ≠ (defaultSaleItem 8).id) ∧
    (saleUpdate 8 exSale (.Edit .AddItem)).sale.calculate_total =
      exSale.calculate_total := by
  obtain ⟨h1, _, _, _, _, _, _, _, h9, _, _, _, h13, _⟩ := additem_spec 8 exSale
  exact ⟨h1, h9 (by decide), h13⟩

theorem appInv_init : AppInv App.init := by
  refine ⟨?_, ?_, ?_, ?_, ?_⟩
  · intro i h
    exact Option.noConfusion h
  · intro mo i h
    exact Screen.noConfusion h
  · intro mo h
    rfl
  · intro oid h
    exact Screen.noConfusion h
  · intro k h
    simp [App.init, lookupSale] at h

theorem resolve_isSome_of_inv (a : App) (mo : Mode) (oid : Option Nat)
    (hi : AppInv a) (hs : a.screen = .Sale mo oid) : (a.resolve oid).isSome := by
  obtain ⟨h1, h2, h3, _, _⟩ := hi
  by_cases hd : a.draft.fst = oid
  · simp [App.resolve, hd]
  · cases oid with
    | none => exact absurd (h3 mo hs) hd
    | some i =>
        rcases h2 mo i hs with h | h
        · exact absurd h hd
        · simpa [App.resolve, hd] using h

theorem saleUpdate_op_frame (nid : Nat) (s : Sale) (m : SaleMsg)
    (h : (saleUpdate nid s m).op.isSome) :
    (saleUpdate nid s m).sale = s ∧ (saleUpdate nid s m).nextItemId = nid := by
  cases m with
  | Show sm => cases sm <;> exact ⟨rfl, rfl⟩
  | Edit em => cases em <;> simp_all [saleUpdate]

theorem perform_some (a : App) (mo : Mode) (sid : Option Nat) (op : SaleOp)
    (hi : AppInv a) (hs : a.screen = .Sale mo sid) :
    ∃ a', a.perform sid op = some a' ∧ AppInv a' := by
  obtain ⟨h1, h2, h3, h4, h5⟩ := hi
  cases op with
  | Back =>
      cases mo with
      | Edit =>
          refine ⟨{ a with screen := .Sale .View sid },
            by simp [App.perform, hs], h1, ?_, ?_, ?_, h5⟩
          · intro mo' i hsc
            injection hsc with _ hid
            subst hid
            exact h2 .Edit i hs
          · intro mo' hsc
            injection hsc with _ hid
            subst hid
            exact h3 .Edit hs
          · intro oid hsc
            injection hsc with hm _
            exact Mode.noConfusion hm
      | View =>
          refine ⟨{ a with screen := .List },
            by simp [App.perform, hs], h1, ?_, ?_, ?_, h5⟩
          · intro mo' i hsc
            exact Screen.noConfusion hsc
          · intro mo' hsc
            exact Screen.noConfusion hsc
          · intro oid hsc
            exact Screen.noConfusion hsc
  | Save =>
      cases hdf : a.draft.fst with
      | some id =>
          refine ⟨{ a with
              sales := insertSale a.sales id a.draft.snd,
              screen := .Sale .View (some id) },
            by simp [App.perform, hdf], ?_, ?_, ?_, ?_, ?_⟩
          · intro j hj
            have hj' : a.draft.fst = some j := hj
            rw [hdf] at hj'
            injection hj' with he
            subst he
            show (lookupSale (insertSale a.sales id a.draft.snd) id).isSome
            simp [lookupSale_insert_self]
          · intro mo' i hsc
            injection hsc with _ hid
            injection hid with he
            subst he
            exact Or.inr (by simp [lookupSale_insert_self])
          · intro mo' hsc
            injection hsc with _ hid
            exact Option.noConfusion hid
          · intro oid hsc
            injection hsc with hm _
            exact Mode.noConfusion hm
          · intro k hk
            have hk' : (lookupSale (insertSale a.sales id a.draft.snd) k).isSome := hk
            rcases (lookupSale_insert_isSome a.sales id k a.draft.snd).mp hk' with he | hol
            · subst he
              exact h5 k (h1 k hdf)
            · exact h5 k hol
      | none =>
          refine ⟨{ a with
              sales := insertSale a.sales a.next_sale_id a.draft.snd,
              draft := (none, Sale.default),
              next_sale_id := a.next_sale_id + 1,
              screen := .Sale .View (some a.next_sale_id) },
            by simp [App.perform, hdf], ?_, ?_, ?_, ?_, ?_⟩
          · intro j hj
            exact Option.noConfusion hj
          · intro mo' i hsc
            injection hsc with _ hid
            injection hid with he
            subst he
            exact Or.inr (by simp [lookupSale_insert_self])
          · intro mo' hsc
            injection hsc with _ hid
            exact Option.noConfusion hid
          · intro oid hsc
            injection hsc with hm _
            exact Mode.noConfusion hm
          · intro k hk
            have hk' : (lookupSale (insertSale a.sales a.next_sale_id a.draft.snd) k).isSome := hk
            rcases (lookupSale_insert_isSome a.sales a.next_sale_id k a.draft.snd).mp hk' with he | hol
            · subst he
              exact Nat.lt_succ_self _
            · exact Nat.lt_trans (h5 k hol) (Nat.lt_succ_self _)
  | StartEdit =>
      cases sid with
      | none =>
          refine ⟨{ a with screen := .Sale .Edit none },
            by simp [App.perform], h1, ?_, ?_, ?_, h5⟩
          · intro mo' i hsc
            injection hsc with _ hid
            exact Option.noConfusion hid
          · intro mo' hsc
            exact h3 mo hs
          · intro oid hsc
            injection hsc with _ hid
            have := h3 mo hs
            rw [← hid]
            exact this
      | some i =>
          have hl : (lookupSale a.sales i).isSome := by
            rcases h2 mo i hs with h | h
            · exact h1 i h
            · exact h
          obtain ⟨s, hsl⟩ := Option.isSome_iff_exists.mp hl
          refine ⟨{ a with
              draft := (some i, s),
              screen := .Sale .Edit (some i) },
            by simp [App.perform, hsl], ?_, ?_, ?_, ?_, h5⟩
          · intro j hj
            have hj' : (some i : Option Nat) = some j := hj
            injection hj' with he
            subst he
            exact hl
          · intro mo' i' hsc
            injection hsc with _ hid
            injection hid with he
            subst he
            exact Or.inl rfl
          · intro mo' hsc
            injection hsc
          · intro oid hsc
            injection hsc
  | Cancel =>
      cases sid with
      | none =>
          refine ⟨{ a with
              draft := (none, Sale.default),
              screen := .Sale .View none },
            by simp [App.perform], ?_, ?_, ?_, ?_, h5⟩
          · intro j hj
            exact Option.noConfusion hj
          · intro mo' i hsc
            injection hsc with _ hid
            exact Option.noConfusion hid
          · intro mo' hsc
            rfl
          · intro oid hsc
            injection hsc
      | some i =>
          have hl : (lookupSale a.sales i).isSome := by
            rcases h2 mo i hs with h | h
            · exact h1 i h
            · exact h
          obtain ⟨s, hsl⟩ := Option.isSome_iff_exists.mp hl
          refine ⟨{ a with
              draft := (some i, s),
              screen := .Sale .View (some i) },
            by simp [App.perform, hsl], ?_, ?_, ?_, ?_, h5⟩
          · intro j hj
            have hj' : (some i : Option Nat) = some j := hj
            injection hj' with he
            subst he
            exact hl
          · intro mo' i' hsc
            injection hsc with _ hid
            injection hid with he
            subst he
            exact Or.inl rfl
          · intro mo' hsc
            injection hsc
          · intro oid hsc
            injection hsc

theorem screen_sale_inj {m1 m2 : Mode} {o1 o2 : Option Nat}
    (h : Screen.Sale m1 o1 = Screen.Sale m2 o2) : m1 = m2 ∧ o1 = o2 :=
  (Screen.Sale.injEq m1 o1 m2 o2) ▸ h

theorem appInv_insert_existing (a : App) (i : Nat) (v : Sale) (nid : Nat)
    (hi : AppInv a) (hl : (lookupSale a.sales i).isSome) :
    AppInv { a with sales := insertSale a.sales i v, next_item_id := nid } := by
  obtain ⟨h1, h2, h3, h4, h5⟩ := hi
  refine ⟨?_, ?_, h3, h4, ?_⟩
  · intro j hj
    exact lookupSale_insert_isSome_mono a.sales i j v (h1 j hj)
  · intro mo j hsc
    rcases h2 mo j hsc with h | h
    · exact Or.inl h
    · exact Or.inr (lookupSale_insert_isSome_mono a.sales i j v h)
  · intro k hk
    have hk' : (lookupSale (insertSale a.sales i v) k).isSome := hk
    rcases (lookupSale_insert_isSome a.sales i k v).mp hk' with he | hol
    · rw [he]
      exact h5 i hl
    · exact h5 k hol

theorem update_saleM_some (a : App) (mo : Mode) (oid : Option Nat) (m : SaleMsg)
    (hi : AppInv a) (hs : a.screen = .Sale mo oid) :
    ∃ a', a.update (.SaleM oid m) = some a' ∧ AppInv a' := by
  by_cases hd : a.draft.fst = oid
  · subst hd
    cases hop : (saleUpdate a.next_item_id a.draft.snd m).op with
    | some op =>
        obtain ⟨hfs, hfn⟩ :=
          saleUpdate_op_frame a.next_item_id a.draft.snd m (by simp [hop])
        obtain ⟨a', hp, hi'⟩ := perform_some a mo a.draft.fst op hi hs
        refine ⟨a', ?_, hi'⟩
        simp only [App.update, eq_self_iff_true, if_true, hop]
        rw [hfs, hfn]
        exact hp
    | none =>
        refine ⟨{ a with
            draft := (a.draft.fst, (saleUpdate a.next_item_id a.draft.snd m).sale),
            next_item_id := (saleUpdate a.next_item_id a.draft.snd m).nextItemId },
          ?_, ?_⟩
        · simp only [App.update, eq_self_iff_true, if_true, hop]
        · obtain ⟨h1, h2, h3, h4, h5⟩ := hi
          exact ⟨h1, h2, h3, h4, h5⟩
  · obtain ⟨h1, h2, h3, h4, h5⟩ := hi
    cases oid with
    | none => exact absurd (h3 mo hs) hd
    | some i =>
        have hl : (lookupSale a.sales i).isSome := by
          rcases h2 mo i hs with h | h
          · exact absurd h hd
          · exact h
        obtain ⟨s, hsl⟩ := Option.isSome_iff_exists.mp hl
        cases hop : (saleUpdate a.next_item_id s m).op with
        | some op =>
            obtain ⟨hfs, hfn⟩ :=
              saleUpdate_op_frame a.next_item_id s m (by simp [hop])
            obtain ⟨a', hp, hi'⟩ :=
              perform_some a mo (some i) op ⟨h1, h2, h3, h4, h5⟩ hs
            refine ⟨a', ?_, hi'⟩
            simp only [App.update]
            rw [if_neg hd]
            simp only [hsl, hop]
            rw [hfs, hfn, insertSale_lookup_eq a.sales i s hsl]
            exact hp
        | none =>
            refine ⟨{ a with
                sales := insertSale a.sales i (saleUpdate a.next_item_id s m).sale,
                next_item_id := (saleUpdate a.next_item_id s m).nextItemId },
              ?_, appInv_insert_existing a i _ _ ⟨h1, h2, h3, h4, h5⟩ hl⟩
            simp only [App.update]
            rw [if_neg hd]
            simp only [hsl, hop]

theorem update_emit_some (a : App) (m : Msg) (hi : AppInv a) (he : Emit a m) :
    ∃ a', a.update m = some a' ∧ AppInv a' := by
  cases he with
  | newSale hscr =>
      obtain ⟨h1, h2, h3, h4, h5⟩ := hi
      refine ⟨{ a with draft := (none, Sale.default), screen := .Sale .Edit none },
        by simp [App.update], ?_, ?_, ?_, ?_, h5⟩
      · intro i h
        exact Option.noConfusion h
      · intro mo i hsc
        obtain ⟨-, hid⟩ := screen_sale_inj hsc
        exact Option.noConfusion hid
      · intro mo hsc
        rfl
      · intro oid hsc
        obtain ⟨-, hid⟩ := screen_sale_inj hsc
        exact hid
  | @selectSale i hscr hl =>
      obtain ⟨h1, h2, h3, h4, h5⟩ := hi
      refine ⟨{ a with screen := .Sale .View (some i) },
        by simp [App.update], h1, ?_, ?_, ?_, h5⟩
      · intro mo j hsc
        obtain ⟨-, hid⟩ := screen_sale_inj hsc
        have he := Option.some.inj hid
        subst he
        exact Or.inr hl
      · intro mo hsc
        obtain ⟨-, hid⟩ := screen_sale_inj hsc
        exact Option.noConfusion hid
      · intro oid hsc
        obtain ⟨hm, -⟩ := screen_sale_inj hsc
        exact Mode.noConfusion hm
  | @hotkey hk =>
      cases hscr : a.screen with
      | List =>
          refine ⟨a, ?_, hi⟩
          simp [App.update, hscr]
      | Sale mode sale_id =>
          have hres : (a.resolve sale_id).isSome :=
            resolve_isSome_of_inv a mode sale_id hi hscr
          obtain ⟨s, hrs⟩ := Option.isSome_iff_exists.mp hres
          cases hk with
          | Escape =>
              obtain ⟨a', hp, hi'⟩ := perform_some a mode sale_id .Back hi hscr
              refine ⟨a', ?_, hi'⟩
              simp only [App.update, hscr, hrs, handleHotkeyOp]
              exact hp
          | Tab sh =>
              refine ⟨a, ?_, hi⟩
              cases mode <;> simp [App.update, hscr, hrs, handleHotkeyOp]
  | @showMsg oid sm hscr =>
      exact update_saleM_some a .View oid (.Show sm) hi hscr
  | @editMsg oid em hscr =>
      exact update_saleM_some a .Edit oid (.Edit em) hi hscr

theorem reach_inv {a : App} (h : Reach a) : AppInv a := by
  induction h with
  | init => exact appInv_init
  | @step a1 a2 m hr he hu ih =>
      obtain ⟨a3, hu3, hi3⟩ := update_emit_some a1 m ih he
      have heq : a2 = a3 := by
        have h23 : some a2 = some a3 := by rw [← hu, hu3]
        exact Option.some.inj h23
      rw [heq]
      exact hi3

theorem perform_next_mono (a a' : App) (sid : Option Nat) (op : SaleOp)
    (h : a.perform sid op = some a') : a.next_sale_id ≤ a'.next_sale_id := by
  cases op with
  | Back =>
      cases hscr : a.screen with
      | List =>
          simp [App.perform, hscr] at h
          subst h
          exact Nat.le_refl _
      | Sale mode oid =>
          cases mode with
          | Edit =>
              simp [App.perform, hscr] at h
              subst h
              exact Nat.le_refl _
          | View =>
              simp [App.perform, hscr] at h
              subst h
              exact Nat.le_refl _
  | Save =>
      cases hdf : a.draft.fst with
      | some id =>
          simp [App.perform, hdf] at h
          subst h
          exact Nat.le_refl _
      | none =>
          simp [App.perform, hdf] at h
          subst h
          exact Nat.le_succ _
  | StartEdit =>
      cases sid with
      | none =>
          simp [App.perform] at h
          subst h
          exact Nat.le_refl _
      | some i =>
          cases hl : lookupSale a.sales i with
          | none => simp [App.perform, hl] at h
          | some s =>
              simp [App.perform, hl] at h
              subst h
              exact Nat.le_refl _
  | Cancel =>
      cases sid with
      | none =>
          simp [App.perform] at h
          subst h
          exact Nat.le_refl _
      | some i =>
          cases hl : lookupSale a.sales i with
          | none => simp [App.perform, hl] at h
          | some s =>
              simp [App.perform, hl] at h
              subst h
              exact Nat.le_refl _

theorem update_next_mono (a a' : App) (m : Msg)
    (h : a.update m = some a') : a.next_sale_id ≤ a'.next_sale_id := by
  cases m with
  | ListM lm =>
      cases lm with
      | NewSale =>
          simp [App.update] at h
          subst h
          exact Nat.le_refl _
      | SelectSale i =>
          simp [App.update] at h
          subst h
          exact Nat.le_refl _
  | HotkeyM hk =>
      cases hscr : a.screen with
      | List =>
          simp [App.update, hscr] at h
          subst h
          exact Nat.le_refl _
      | Sale mode oid =>
          cases hres : a.resolve oid with
          | none => simp [App.update, hscr, hres] at h
          | some s =>
              cases hko : handleHotkeyOp mode hk with
              | none =>
                  simp [App.update, hscr, hres, hko] at h
                  subst h
                  exact Nat.le_refl _
              | some op =>
                  simp only [App.update, hscr, hres, hko] at h
                  exact perform_next_mono a a' oid op h
  | SaleM sid msg =>
      by_cases hd : a.draft.fst = sid
      · cases hop : (saleUpdate a.next_item_id a.draft.snd msg).op with
        | none =>
            simp [App.update, hd, hop] at h
            subst h
            exact Nat.le_refl _
        | some op =>
            simp only [App.update, hd, eq_self_iff_true, if_true, hop] at h
            have hm := perform_next_mono _ a' sid op h
            exact hm
      · cases sid with
        | none => simp [App.update, hd] at h
        | some i =>
            cases hl : lookupSale a.sales i with
            | none => simp [App.update, hd, hl] at h
            | some s =>
                cases hop : (saleUpdate a.next_item_id s msg).op with
                | none =>
                    simp [App.update, hd, hl, hop] at h
                    subst h
                    exact Nat.le_refl _
                | some op =>
                    simp only [App.update, hd, hl, hop, if_false] at h
                    have hm := perform_next_mono _ a' (some i) op h
                    exact hm

/-- C5: in every reachable state every key of the sales map is strictly
below the `next_sale_id` counter, so the counter value itself is never a
key already in the map; a Save of a new draft inserts the draft under
exactly `next_sale_id` (hence never overwrites an existing sale) and
increments the counter by one, and no step ever decreases the counter -
so the ids assigned to successively created sales are strictly
increasing, starting from the initial counter value 1. -/
theorem sale_id_allocation (a : App) (h : Reach a) :
    (∀ k, (lookupSale a.sales k).isSome → k < a.next_sale_id) ∧
    lookupSale a.sales a.next_sale_id = none ∧
    App.init.next_sale_id = 1 ∧
    (∀ m a', a.update m = some a' → a.next_sale_id ≤ a'.next_sale_id) ∧
    (a.draft.fst = none → ∀ sid,
      ∃ a', a.perform sid .Save = some a' ∧
        lookupSale a'.sales a.next_sale_id = some a.draft.snd ∧
        a'.screen = .Sale .View (some a.next_sale_id) ∧
        a'.next_sale_id = a.next_sale_id + 1) := by
  obtain ⟨h1, h2, h3, h4, h5⟩ := reach_inv h
  refine ⟨h5, ?_, rfl, ?_, ?_⟩
  · cases hl : lookupSale a.sales a.next_sale_id with
    | none => rfl
    | some s => exact absurd (h5 a.next_sale_id (by simp [hl])) (Nat.lt_irrefl _)
  · intro m a' hu
    exact update_next_mono a a' m hu
  · intro hdn sid
    refine ⟨{ a with
        sales := insertSale a.sales a.next_sale_id a.draft.snd,
        draft := (none, Sale.default),
        next_sale_id := a.next_sale_id + 1,
        screen := .Sale .View (some a.next_sale_id) },
      by simp [App.perform, hdn], ?_, rfl, rfl⟩
    exact lookupSale_insert_self a.sales a.next_sale_id a.draft.snd

theorem sale_id_allocation_witness :
    lookupSale App.init.sales App.init.next_sale_id = none ∧
    (∃ a', App.init.perform none .Save = some a' ∧
      lookupSale a'.sales App.init.next_sale_id = some App.init.draft.snd ∧
      a'.screen = .Sale .View (some App.init.next_sale_id) ∧
      a'.next_sale_id = App.init.next_sale_id + 1) :=
  ⟨(sale_id_allocation App.init Reach.init).2.1,
   (sale_id_allocation App.init Reach.init).2.2.2.2 rfl none⟩

/-- C9: in every state reachable by delivering emitted messages, a sale
screen with id `some i` resolves through the draft or the sales map, a
sale screen with id `none` has the new-sale draft; hence the shared
sale-resolution used by title/update/view succeeds, and `update` returns
`some` (never panics) on every message the running application can
deliver. -/
theorem sale_screen_resolution_safe (a : App) (h : Reach a) :
    (∀ mo i, a.screen = .Sale mo (some i) →
        a.draft.fst = some i ∨ (lookupSale a.sales i).isSome) ∧
    (∀ mo, a.screen = .Sale mo none → a.draft.fst = none) ∧
    (∀ mo oid, a.screen = .Sale mo oid → (a.resolve oid).isSome) ∧
    (∀ m, Emit a m → (a.update m).isSome) := by
  obtain ⟨h1, h2, h3, h4, h5⟩ := reach_inv h
  refine ⟨h2, h3, ?_, ?_⟩
  · intro mo oid hs
    exact resolve_isSome_of_inv a mo oid ⟨h1, h2, h3, h4, h5⟩ hs
  · intro m he
    obtain ⟨a', hu, -⟩ := update_emit_some a m ⟨h1, h2, h3, h4, h5⟩ he
    simp [hu]

theorem sale_screen_resolution_safe_witness :
    (App.init.update (.ListM .NewSale)).isSome :=
  (sale_screen_resolution_safe App.init Reach.init).2.2.2
    (.ListM .NewSale) (Emit.newSale rfl)

/-- C10: in reachable states the edit screen always edits the draft; the
six content-modifying edit messages change only the draft sale (the
sales map, the screen, the draft id and the sale-id counter are
untouched); Cancel leaves the sales map unchanged and resets the draft
to a copy of the stored sale (or to the blank draft for a new sale) -
so content edits reach the sales map only through Save. -/
theorem content_edits_only_draft (a : App) :
    (Reach a → ∀ sid, a.screen = .Sale .Edit sid → a.draft.fst = sid) ∧
    (∀ sid em, ContentEdit em → a.draft.fst = sid →
      ∃ a', a.update (.SaleM sid (.Edit em)) = some a' ∧
        a'.sales = a.sales ∧ a'.screen = a.screen ∧
        a'.draft.fst = a.draft.fst ∧ a'.next_sale_id = a.next_sale_id) ∧
    (∀ i s, lookupSale a.sales i = some s →
      a.perform (some i) .Cancel =
        some { a with draft := (some i, s), screen := .Sale .View (some i) }) ∧
    (a.perform none .Cancel =
      some { a with draft := (none, Sale.default), screen := .Sale .View none }) := by
  refine ⟨?_, ?_, ?_, ?_⟩
  · intro hr sid hsc
    obtain ⟨-, -, -, h4, -⟩ := reach_inv hr
    exact h4 sid hsc
  · intro sid em hce hd
    subst hd
    cases hce with
    | @nameChanged n =>
        refine ⟨{ a with
            draft := (a.draft.fst, { a.draft.snd with name := n }),
            next_item_id := a.next_item_id },
          ?_, rfl, rfl, rfl, rfl⟩
        simp [App.update, saleUpdate]
    | addItem =>
        refine ⟨{ a with
            draft := (a.draft.fst, { a.draft.snd with
              items := a.draft.snd.items ++ [defaultSaleItem a.next_item_id] }),
            next_item_id := a.next_item_id + 1 },
          ?_, rfl, rfl, rfl, rfl⟩
        simp [App.update, saleUpdate]
    | @removeItem i =>
        refine ⟨{ a with
            draft := (a.draft.fst, { a.draft.snd with
              items := a.draft.snd.items.filter (fun it => it.id != i) }),
            next_item_id := a.next_item_id },
          ?_, rfl, rfl, rfl, rfl⟩
        simp [App.update, saleUpdate]
    | @updateItem i u =>
        refine ⟨{ a with
            draft := (a.draft.fst, { a.draft.snd with
              items := updateItemList a.draft.snd.items i u }),
            next_item_id := a.next_item_id },
          ?_, rfl, rfl, rfl, rfl⟩
        simp [App.update, saleUpdate]
    | @updateServiceCharge v =>
        refine ⟨{ a with
            draft := (a.draft.fst, { a.draft.snd with
              service_charge_percent := some v }),
            next_item_id := a.next_item_id },
          ?_, rfl, rfl, rfl, rfl⟩
        simp [App.update, saleUpdate]
    | @updateGratuity v =>
        refine ⟨{ a with
            draft := (a.draft.fst, { a.draft.snd with
              gratuity_amount := some v }),
            next_item_id := a.next_item_id },
          ?_, rfl, rfl, rfl, rfl⟩
        simp [App.update, saleUpdate]
  · intro i s hsl
    simp [App.perform, hsl]
  · simp [App.perform]

theorem content_edits_only_draft_witness :
    (∃ a', exApp.update (.SaleM (some 1) (.Edit (.NameChanged "Dinner"))) = some a' ∧
      a'.sales = exApp.sales ∧ a'.screen = exApp.screen ∧
      a'.draft.fst = exApp.draft.fst ∧ a'.next_sale_id = exApp.next_sale_id) ∧
    exApp.perform (some 1) .Cancel =
      some { exApp with draft := (some 1, exSale), screen := .Sale .View (some 1) } ∧
    exApp.perform none .Cancel =
      some { exApp with draft := (none, Sale.default), screen := .Sale .View none } ∧
    (⟨.Sale .Edit none, [], (none, Sale.default), 1, 0⟩ : App).draft.fst = none :=
  ⟨(content_edits_only_draft exApp).2.1 (some 1) (.NameChanged "Dinner")
      ContentEdit.nameChanged rfl,
   (content_edits_only_draft exApp).2.2.1 1 exSale rfl,
   (content_edits_only_draft exApp).2.2.2,
   (content_edits_only_draft (⟨.Sale .Edit none, [], (none, Sale.default), 1, 0⟩ : App)).1
      (Reach.step Reach.init (Emit.newSale rfl) rfl) none rfl⟩
